import Mathlib

/-!
Verification development for the cluster-merging core of `merge_clusters.py`.

The Python source is shallowly embedded below.  Python sets of strings are
modelled as duplicate-free `List String` values (union and iteration order are
determinized by list order; every property proved here is order-independent),
floats are modelled as `ℚ` at the merger level and as `ℝ` where Pearson
correlation and square roots are involved, pandas data frames are modelled as
lists of records, and fallible code returns `Except PyErr`.
-/

namespace Meantools

/-- Errors raised by the Python code paths that the claims touch. -/
inductive PyErr where
  | nameError
  | typeError
  | missingFeature
  | networkxError
deriving DecidableEq, Repr

/-- Set intersection of two string lists (Python `a & b` on sets): the
elements of `a` that also occur in `b`. -/
def listInter (a b : List String) : List String :=
  a.filter (fun x => decide (x ∈ b))

/-- Set union (Python `a.update(b)` on sets): extend `a` by the elements of
`b` not already present, deduplicating the added part. -/
def listUnion (a b : List String) : List String :=
  b.foldl (fun acc x => if x ∈ acc then acc else acc ++ [x]) a

/-- Set equality test (Python `new_merged_set not in merged_clusters`
compares sets by extensional equality). -/
def listSetEq (a b : List String) : Bool :=
  a.all (fun x => decide (x ∈ b)) && b.all (fun x => decide (x ∈ a))

/-- Auxiliary character-level splitter (structural recursion, so concrete
inputs evaluate inside the kernel). -/
def splitCharsAux (sep : Char) : List Char → List Char → List (List Char)
  | [], acc => [acc.reverse]
  | c :: rest, acc =>
    if c = sep then acc.reverse :: splitCharsAux sep rest []
    else splitCharsAux sep rest (c :: acc)

/-- Python `s.split(sep)` for a one-character separator, keeping empty
fields, as used on the `Members` cells. -/
def pySplitOn (sep : Char) (s : String) : List String :=
  (splitCharsAux sep s.data []).map (fun l => String.mk l)

/-- One row of the concatenated cluster table (`frame` in `main`):
columns `ID`, `Members` (space-separated member identifiers) and
`Source` (`"DR_<int>"`). -/
structure ClusterRow where
  ID : String
  Members : String
  Source : String
deriving DecidableEq, Repr

/-- One output row of `merge_clusters_overlapping`:
columns `ID`, `Metabolites`, `Genes` (kept as lists of identifiers; the
source joins them with spaces only when writing the data frame). -/
structure MergedRow where
  ID : String
  Metabolites : List String
  Genes : List String
deriving DecidableEq, Repr

/-- Embeds `split_and_match` (source lines 117-132): the cell is split on
commas, `matching` keeps the members found in the metabolite feature
column, `unmatching` keeps the members not occurring in `matching`. -/
def split_and_match (cell : String) (metabolite_features : List String) :
    List String × List String :=
  let merged_members := pySplitOn ',' cell
  let matching := merged_members.filter (fun m => decide (m ∈ metabolite_features))
  let unmatching := merged_members.filter (fun m => decide (m ∉ matching))
  (matching, unmatching)

/-- Appends cluster index `i` to the entry of anchor `k` in the
anchor-to-cluster-indices association list, inserting a fresh entry when the
anchor is new (the `m_elements` dictionary, source lines 164-171). -/
def upsertIdx : List (String × List Nat) → String → Nat → List (String × List Nat)
  | [], k, i => [(k, [i])]
  | (k0, v) :: rest, k, i =>
    if k0 = k then (k0, v ++ [i]) :: rest else (k0, v) :: upsertIdx rest k i

/-- Builds the `m_elements` mapping of `merge_clusters_overlapping`
(source lines 161-171): for every cluster, every member that lies in the
metabolite feature universe records the cluster index. -/
def buildMElements (clusters : List (List String)) (features : List String) :
    List (String × List Nat) :=
  clusters.enum.foldl
    (fun acc p =>
      (p.2.filter (fun x => decide (x ∈ features))).foldl
        (fun a m => upsertIdx a m p.1) acc)
    []

/-- Index of the first element satisfying `p`, mirroring the linear scan
`for existing_cluster in merged_clusters: ... break` of the source. -/
def findFirstIdx (p : List String → Bool) : List (List String) → Option Nat
  | [] => none
  | a :: l => if p a then some 0 else (findFirstIdx p l).map (· + 1)

/-- Embeds the absorption step of `merge_clusters_overlapping`
(source lines 183-192): the first existing merged cluster intersecting the
new merged set is updated in place and the scan stops; when none intersects,
the new set is appended unless an extensionally equal set is already
present (the `for`-`else` branch). -/
def absorbNew (merged : List (List String)) (new_set : List String) :
    List (List String) :=
  match findFirstIdx (fun c => !(listInter c new_set).isEmpty) merged with
  | some i => merged.set i (listUnion (merged.getD i []) new_set)
  | none =>
    if merged.any (fun c => listSetEq c new_set) then merged
    else merged ++ [new_set]

/-- Embeds the anchor loop of `merge_clusters_overlapping`
(source lines 174-192): every anchor shared by at least two clusters marks
those clusters visited and feeds the union of their member sets to
`absorbNew`.  Returns the merged sets and the visited indices. -/
def overlapMergeFold (clusters : List (List String))
    (ments : List (String × List Nat)) : List (List String) × List Nat :=
  ments.foldl
    (fun st p =>
      if p.2.length > 1 then
        (absorbNew st.1 (p.2.foldl (fun acc i => listUnion acc (clusters.getD i [])) []),
         st.2 ++ p.2)
      else st)
    ([], [])

/-- Embeds `merge_clusters_overlapping` (source lines 134-215): restrict to
the requested decay rate, build the anchor map, merge clusters sharing
anchors, carry unvisited clusters through unchanged, and split each merged
set into metabolite and gene sub-lists with sequential `MC_<n>` IDs. -/
def merge_clusters_overlapping (df : List ClusterRow)
    (metabolite_features : List String) (dr : Nat) : List MergedRow :=
  let decay_rate := "DR_" ++ toString dr
  let selected := df.filter (fun r => decide (r.Source = decay_rate))
  let clusters := selected.map (fun r => (pySplitOn ' ' r.Members).eraseDups)
  let ments := buildMElements clusters metabolite_features
  let mv := overlapMergeFold clusters ments
  let remaining := (clusters.enum.filter (fun p => decide (p.1 ∉ mv.2))).map (·.2)
  let all_merged := mv.1 ++ remaining
  all_merged.enum.map (fun p =>
    ⟨"MC_" ++ toString (p.1 + 1),
     p.2.filter (fun x => decide (x ∈ metabolite_features)),
     p.2.filter (fun x => decide (x ∉ metabolite_features))⟩)

/-- One row of the coexpression edge table: columns `gene1`, `gene2`,
`edgeweight`. -/
structure CoexEdge where
  gene1 : String
  gene2 : String
  edgeweight : ℚ
deriving DecidableEq, Repr

/-- The neighbours recorded for `gene` by the source (lines 351-353): both
endpoint columns of every edge row whose `gene1` or `gene2` equals `gene`
with `edgeweight >= threshold`.  Note that `gene` itself is always among
the endpoints of a matching row, exactly as in the source. -/
def coexConnections (coex : List CoexEdge) (threshold : ℚ) (gene : String) :
    List String :=
  (coex.filter (fun e =>
      decide ((e.gene1 = gene ∧ threshold ≤ e.edgeweight) ∨
              (e.gene2 = gene ∧ threshold ≤ e.edgeweight)))).flatMap
    (fun e => [e.gene1, e.gene2])

/-- Embeds the inner gene loop of `merge_clusters_coex` (source lines
350-357).  The Python local `connected` is modelled as `Option Bool`:
`none` means the name is still unbound.  The loop assigns `connected = True`
and breaks at the first gene whose neighbour set meets the candidate
cluster; otherwise `connected` keeps its previous value — the source never
resets it to `False`, which this embedding reproduces faithfully. -/
def checkConnected (coex : List CoexEdge) (threshold : ℚ)
    (other_cluster : List String) :
    List String → Option Bool → Option Bool
  | [], c => c
  | g :: rest, c =>
    if !(listInter (coexConnections coex threshold g) other_cluster).isEmpty then
      some true
    else checkConnected coex threshold other_cluster rest c

/-- State carried through one expansion pass over the candidate clusters:
the current member set, the keys collected in `clusters_to_merge`, the
`merge_occurred` flag and the (function-scoped) `connected` variable. -/
structure CoexPassState where
  cur : List String
  toMerge : List String
  occurred : Bool
  conn : Option Bool
deriving Repr

/-- Embeds one full pass of the candidate loop (source lines 345-362): every
cluster that is neither visited nor the seed is tested with the gene loop;
reading the unbound `connected` raises `NameError`; a truthy `connected`
absorbs the candidate members and records the key. -/
def coexPassGo (coex : List CoexEdge) (threshold : ℚ) (seedKey : String)
    (visited : List String) :
    List (String × List String) → CoexPassState → Except PyErr CoexPassState
  | [], st => .ok st
  | (k, cl) :: rest, st =>
    if k ∈ visited ∨ k = seedKey then
      coexPassGo coex threshold seedKey visited rest st
    else
      match checkConnected coex threshold cl st.cur st.conn with
      | none => .error .nameError
      | some b =>
        if b then
          coexPassGo coex threshold seedKey visited rest
            ⟨listUnion st.cur cl, st.toMerge ++ [k], true, some b⟩
        else
          coexPassGo coex threshold seedKey visited rest
            { st with conn := some b }

/-- Embeds the `while merge_occurred` loop of `merge_clusters_coex`
(source lines 341-365), with an explicit pass budget (`fuel`).  After each
pass the collected keys are marked visited; the loop repeats while a pass
absorbed at least one candidate.  `none` means the budget was exhausted. -/
def coexExpand (coex : List CoexEdge) (threshold : ℚ)
    (dict : List (String × List String)) (seedKey : String) :
    Nat → List String → List String → Option Bool →
    Option (Except PyErr (List String × List String × Option Bool))
  | 0, _, _, _ => none
  | fuel + 1, visited, cur, conn =>
    match coexPassGo coex threshold seedKey visited dict ⟨cur, [], false, conn⟩ with
    | .error e => some (.error e)
    | .ok st =>
      let visited2 := visited ++ st.toMerge
      if st.occurred then
        coexExpand coex threshold dict seedKey fuel visited2 st.cur st.conn
      else
        some (.ok (st.cur, visited2, st.conn))

/-- Insertion of a string into a sorted list, used to model the Python
`sorted` call on the final member set. -/
def insertSorted (x : String) : List String → List String
  | [] => [x]
  | y :: rest => if x ≤ y then x :: y :: rest else y :: insertSorted x rest

/-- Sorts a list of strings, modelling `sorted(current_cluster)`. -/
def sortStrings (l : List String) : List String :=
  l.foldr insertSorted []

/-- One output row of `merge_clusters_coex`: columns `ID` and `Members`
(the sorted member identifiers joined with spaces). -/
structure CoexRow where
  ID : String
  Members : String
deriving DecidableEq, Repr

/-- Embeds the seed loop of `merge_clusters_coex` (source lines 333-371):
visited seeds are skipped; each remaining seed is expanded to its fixed
point, its absorbed keys and itself are marked visited, and the sorted
member set is emitted under the seed ID.  The `connected` variable and the
visited set persist across seeds, as in the source. -/
def coexSeeds (coex : List CoexEdge) (threshold : ℚ)
    (dict : List (String × List String)) (fuel : Nat) :
    List (String × List String) → List String → Option Bool → List CoexRow →
    Option (Except PyErr (List CoexRow))
  | [], _, _, out => some (.ok out)
  | (k, cl) :: rest, visited, conn, out =>
    if k ∈ visited then
      coexSeeds coex threshold dict fuel rest visited conn out
    else
      match coexExpand coex threshold dict k fuel visited cl.eraseDups conn with
      | none => none
      | some (.error e) => some (.error e)
      | some (.ok (cur, visited2, conn2)) =>
        coexSeeds coex threshold dict fuel rest (visited2 ++ [k]) conn2
          (out ++ [⟨k, " ".intercalate (sortStrings cur)⟩])

/-- Embeds `merge_clusters_coex` (source lines 301-377) with an explicit
per-seed pass budget: restrict to the requested decay rate, build the
ID-to-members dictionary, and run the seed loop. -/
def merge_clusters_coexAux (passBudget : Nat) (df : List ClusterRow)
    (coexpression_df : List CoexEdge) (dr : Nat) (threshold : ℚ) :
    Option (Except PyErr (List CoexRow)) :=
  let decay_rate := "DR_" ++ toString dr
  let selected := df.filter (fun r => decide (r.Source = decay_rate))
  let dict := selected.map (fun r => (r.ID, pySplitOn ' ' r.Members))
  coexSeeds coexpression_df threshold dict passBudget dict [] none []

/-- Embeds `merge_clusters_coex` with the pass budget `#clusters + 1`,
which the termination theorem below proves sufficient: the `while` loop of
the source stops as soon as a pass absorbs nothing, and every continuing
pass visits at least one further cluster. -/
def merge_clusters_coex (df : List ClusterRow)
    (coexpression_df : List CoexEdge) (dr : Nat) (threshold : ℚ) :
    Option (Except PyErr (List CoexRow)) :=
  let decay_rate := "DR_" ++ toString dr
  let n := (df.filter (fun r => decide (r.Source = decay_rate))).length
  merge_clusters_coexAux (n + 1) df coexpression_df dr threshold

/-- The correlation data frame passed to `merge_clusters_fingerprinting`:
a square matrix whose row and column labels are the cluster IDs (it is
built symmetrically with identical row and column index in `main`).
`labels` and `values` are parallel lists. -/
structure CorrDf where
  labels : List String
  values : List (List ℚ)
deriving DecidableEq, Repr

/-- Entry of the correlation data frame at row `i`, column `j`
(0 outside the stored range). -/
def corrValue (c : CorrDf) (i j : Nat) : ℚ :=
  (c.values.getD i []).getD j 0

/-- Embeds the graph construction of `merge_clusters_fingerprinting`
(source lines 237-241): an edge is added between positions `i` and `j` iff
their labels differ and the matrix entry is at least the threshold.  The
source compares the row and column labels (`if i != j`); positions stand
for the insertion order of the rows. -/
def hasEdge (c : CorrDf) (threshold : ℚ) (i j : Nat) : Bool :=
  decide (c.labels.getD i "" ≠ c.labels.getD j "") &&
  decide (threshold ≤ corrValue c i j)

/-- All weighted edges of the similarity graph. -/
def similarityEdges (c : CorrDf) (threshold : ℚ) : List (Nat × Nat × ℚ) :=
  (List.range c.values.length).flatMap (fun i =>
    (List.range c.values.length).filterMap (fun j =>
      if hasEdge c threshold i j then some (i, j, corrValue c i j) else none))

/-- One output row of `merge_clusters_fingerprinting`: columns `Cluster`,
`metabolites`, `genes`. -/
structure FingRow where
  Cluster : String
  metabolites : String
  genes : String
deriving DecidableEq, Repr

/-- Embeds the per-row invocation of `split_and_match` at source line 277:
the call `cluster_df.apply(split_and_match, args=(metabolite_df,), axis=1)`
omits the required third parameter `column` of `split_and_match`
(source line 117), so every row invocation raises `TypeError`. -/
def split_and_match_missing_column (_row : String × String) : Except PyErr FingRow :=
  .error .typeError

/-- Embeds `merge_members` (source lines 271-273): the member strings of the
cluster IDs of one partition block, joined with a comma and a space
(missing IDs contribute the empty string, `id_to_members.get(id, '')`). -/
def merge_members (raw_df : List (String × String)) (block : List String) : String :=
  ", ".intercalate
    (block.map (fun cid => (((raw_df.find? (fun p => p.1 == cid)).map (·.2)).getD "")))

/-- Embeds `merge_clusters_fingerprinting` (source lines 218-287).  The
graph loop at lines 237-241 adds one node per matrix row; the conversion
`nx.to_scipy_sparse_array(G)` at line 244 raises
`NetworkXError("Graph has no nodes or edges")` when the graph has zero
nodes, which is modelled by the explicit `nodes.isEmpty` check before the
partition step.  On a nonempty graph the conversion plus
`mc.run_mcl` and `mc.get_clusters` (external `markov_clustering` library)
act as a partitioner parameter with the contract of the spec: node-list
and weighted-edge-list in, partition out.  After the partition blocks are
mapped back to cluster IDs and their member strings are joined, the source
applies `split_and_match` to every row with its `column` argument missing,
so the call errors on the first row.  The `inflation` parameter is accepted
and never used, exactly as in the source (`mc.run_mcl` is called without
it). -/
def merge_clusters_fingerprinting
    (partitioner : List Nat → List (Nat × Nat × ℚ) → List (List Nat))
    (raw_df : List (String × String)) (corr_df : CorrDf)
    (_metabolite_features : List String) (threshold _inflation : ℚ) :
    Except PyErr (List FingRow) :=
  let nodes := List.range corr_df.values.length
  let edges := similarityEdges corr_df threshold
  if nodes.isEmpty then .error .networkxError
  else
    let clusters := partitioner nodes edges
    let clustered_columns :=
      clusters.map (fun cl => cl.map (fun i => corr_df.labels.getD i ""))
    let rows := clustered_columns.map (fun block =>
      (", ".intercalate block, merge_members raw_df block))
    rows.mapM split_and_match_missing_column

/-- The MCL stand-in used for concrete evaluations: every node is its own
partition block. -/
def singletonPartition (nodes : List Nat) (_edges : List (Nat × Nat × ℚ)) :
    List (List Nat) :=
  nodes.map (fun x => [x])

/-- One row of a feature table (transcript or metabolite): the `feature`
identifier and the numeric sample measurements. -/
structure FeatureRow where
  feature : String
  values : List ℚ
deriving DecidableEq, Repr

/-- Embeds the per-member lookup of `fill_extracted_rows` (source lines
387-395): all transcript rows matching the identifier when the transcript
table contains it, otherwise all metabolite rows when the metabolite table
contains it, otherwise the fatal missing-feature exit. -/
def extract_element (transcripts_df metabolite_df : List FeatureRow)
    (element : String) : Except PyErr (List FeatureRow) :=
  if element ∈ transcripts_df.map (·.feature) then
    .ok (transcripts_df.filter (fun r => decide (r.feature = element)))
  else if element ∈ metabolite_df.map (·.feature) then
    .ok (metabolite_df.filter (fun r => decide (r.feature = element)))
  else
    .error .missingFeature

/-- Embeds `fill_extracted_rows` (source lines 380-397): the members cell is
split, every member is resolved by `extract_element`, and the matched rows
are concatenated in member order. -/
def fill_extracted_rows (row : String × String)
    (transcripts_df metabolite_df : List FeatureRow) :
    Except PyErr (String × List FeatureRow) := do
  let elements_list := pySplitOn ' ' row.2
  let rows ← elements_list.foldlM
    (fun acc e => do
      let r ← extract_element transcripts_df metabolite_df e
      pure (acc ++ r))
    []
  pure (row.1, rows)

/-- The merge action selected by the dispatch in `main`. -/
inductive MergeAction where
  | overlapMerge
  | fingerprintingMerge
  | coexpressionMerge
  | invalidMethodExit
deriving DecidableEq, Repr

/-- Python equality between a `bool` and a `str` is always `False`;
this models the comparison `Options.merge_clusters == "fingerprinting"`
at source line 513, where `merge_clusters` is the boolean `-mc` flag. -/
def py_eq_bool_str (_b : Bool) (_s : String) : Bool := false

/-- Embeds the merge-method dispatch of `main` (source lines 481-591):
nothing runs without the `-mc` flag; `"overlap"` selects the overlap
merger; the second branch compares the boolean `merge_clusters` flag —
not `merge_method` — against `"fingerprinting"`; `"coexpression"` selects
the coexpression merger; everything else reaches
`sys.exit("Not a valid method for merging cluster. Try again!")`. -/
def dispatch_merge_method (merge_clusters : Bool) (merge_method : String) :
    Option MergeAction :=
  if merge_clusters then
    if merge_method == "overlap" then some .overlapMerge
    else if py_eq_bool_str merge_clusters "fingerprinting" then some .fingerprintingMerge
    else if merge_method == "coexpression" then some .coexpressionMerge
    else some .invalidMethodExit
  else none

/-- Arithmetic mean of a sample vector, as used by `np.corrcoef`. -/
noncomputable def sampleMean {n : ℕ} (x : Fin n → ℝ) : ℝ :=
  (∑ i, x i) / n

/-- Mean-centered sample vector. -/
noncomputable def centered {n : ℕ} (x : Fin n → ℝ) : Fin n → ℝ :=
  fun i => x i - sampleMean x

/-- Sample covariance with the `n - 1` normalization of `np.cov`, which
`np.corrcoef` builds on. -/
noncomputable def covariance {n : ℕ} (x y : Fin n → ℝ) : ℝ :=
  (∑ i, centered x i * centered y i) / ((n : ℝ) - 1)

/-- Pearson correlation coefficient as computed by `np.corrcoef(Fi, Fj)[0, 1]`:
the covariance normalized by the two standard deviations. -/
noncomputable def pearson_corr {n : ℕ} (x y : Fin n → ℝ) : ℝ :=
  covariance x y / (Real.sqrt (covariance x x) * Real.sqrt (covariance y y))

/-- Embeds `association_strength` (source lines 41-47):
`(1 + corr_coeff) / 2`. -/
noncomputable def association_strength {n : ℕ} (Fi Fj : Fin n → ℝ) : ℝ :=
  (1 + pearson_corr Fi Fj) / 2

/-- Embeds the association-matrix construction of `main` (source lines
525-536): `1.0` on the diagonal, `association_strength` of the two
fingerprints off the diagonal. -/
noncomputable def correlation_matrix {m n : ℕ} (fps : Fin m → Fin n → ℝ) (i j : Fin m) : ℝ :=
  if i = j then 1 else association_strength (fps i) (fps j)

/-- C1: evaluation of the coexpression merger at the failing input of the
spec scenario — edge table `{(g1, g2, 0.9)}`, clusters `X = {g1}` and
`Y = {g2}` at decay rate 25, threshold `0.95`.  The claim expects two
unmerged clusters; the code instead reads the local variable `connected`
before any assignment (it is only ever assigned inside the connection
branch), raising `NameError`. -/
theorem coex_claim_scenario_raises_nameerror :
    merge_clusters_coex
      [⟨"X", "g1", "DR_25"⟩, ⟨"Y", "g2", "DR_25"⟩]
      [⟨"g1", "g2", mkRat 9 10⟩] 25 (mkRat 95 100) =
      some (Except.error PyErr.nameError) := by
  rfl

/-- C2: counterexample to the claim that intersecting merged-sets are all
unioned so that emitted merged-sets are pairwise disjoint.  Six clusters at
decay rate 25: anchors `m1` and `m2` first build the merged-sets
`{m1, x}` and `{m2, y}`; anchor `m3` then contributes `{m3, x, y}`, which
intersects both, but the source unions it only into the first (`{m1, x}`)
and stops the scan, so the gene `y` ends up in two distinct output
clusters. -/
theorem overlap_shared_member_counterexample :
    merge_clusters_overlapping
      [⟨"A", "m1 x", "DR_25"⟩, ⟨"B", "m1", "DR_25"⟩,
       ⟨"C", "m2 y", "DR_25"⟩, ⟨"D", "m2", "DR_25"⟩,
       ⟨"E", "m3 x y", "DR_25"⟩, ⟨"F", "m3", "DR_25"⟩]
      ["m1", "m2", "m3"] 25 =
      [⟨"MC_1", ["m1", "m3"], ["x", "y"]⟩, ⟨"MC_2", ["m2"], ["y"]⟩] ∧
    "y" ∈ (⟨"MC_1", ["m1", "m3"], ["x", "y"]⟩ : MergedRow).Genes ∧
    "y" ∈ (⟨"MC_2", ["m2"], ["y"]⟩ : MergedRow).Genes := by
  refine ⟨by rfl, by decide, by decide⟩

/-- C3: evaluation of the fingerprint merger at a failing input — a single
cluster, so the partition has one block and `split_and_match` is applied to
one row.  The application at source line 277 omits the required `column`
argument, so the merger aborts with `TypeError` and emits no output,
violating the coverage invariant on the fingerprinting path. -/
theorem fingerprinting_nonempty_raises_typeerror :
    merge_clusters_fingerprinting singletonPartition
      [("cluster001_DR_25_0", "g1 m1")]
      ⟨["cluster001_DR_25_0"], [[1]]⟩ ["m1"] (mkRat 1 2) 2 =
      Except.error PyErr.typeError := by
  rfl

/-- C4: evaluation of the dispatch of `main` with merging requested and
merge method `"fingerprinting"`.  The second branch compares the boolean
`merge_clusters` flag — not `merge_method` — with the string
`"fingerprinting"`, which is always false in Python, so the dispatch falls
through to the invalid-method exit instead of invoking the fingerprint
merger. -/
theorem dispatch_fingerprinting_hits_invalid_method :
    dispatch_merge_method true "fingerprinting" = some MergeAction.invalidMethodExit ∧
    dispatch_merge_method true "overlap" = some MergeAction.overlapMerge ∧
    dispatch_merge_method true "coexpression" = some MergeAction.coexpressionMerge := by
  exact ⟨rfl, rfl, rfl⟩

/-- C6: counterexample to the claim that threshold `1.0` yields no edges
between distinct clusters for every association matrix with entries in
`[0, 1]`.  The matrix with all entries `1` (two perfectly correlated
fingerprints) satisfies the invariant, yet the graph gets an edge between
the two distinct clusters, because `value >= threshold` is not strict. -/
theorem threshold_one_edge_counterexample :
    hasEdge ⟨["A", "B"], [[1, 1], [1, 1]]⟩ 1 0 1 = true ∧
    corrValue ⟨["A", "B"], [[1, 1], [1, 1]]⟩ 0 0 = 1 ∧
    corrValue ⟨["A", "B"], [[1, 1], [1, 1]]⟩ 0 1 = 1 ∧
    corrValue ⟨["A", "B"], [[1, 1], [1, 1]]⟩ 1 0 = 1 ∧
    corrValue ⟨["A", "B"], [[1, 1], [1, 1]]⟩ 1 1 = 1 := by
  decide

lemma findFirstIdx_append_cons (p : List String → Bool)
    (pre : List (List String)) (m : List String) (post : List (List String))
    (h1 : ∀ c ∈ pre, p c = false) (hm : p m = true) :
    findFirstIdx p (pre ++ m :: post) = some pre.length := by
  induction pre with
  | nil => simp [findFirstIdx, hm]
  | cons a l ih =>
    have ha := h1 a (by simp)
    have ih2 := ih (fun c hc => h1 c (by simp [hc]))
    simp [findFirstIdx, ha, ih2]

lemma getD_append_cons (pre : List (List String)) (m : List String)
    (post : List (List String)) (d : List String) :
    (pre ++ m :: post).getD pre.length d = m := by
  induction pre with
  | nil => simp
  | cons a l ih => simpa using ih

lemma set_append_cons (pre : List (List String)) (m u : List String)
    (post : List (List String)) :
    (pre ++ m :: post).set pre.length u = pre ++ u :: post := by
  induction pre with
  | nil => simp
  | cons a l ih => simp [ih]

/-- C2 (amended): when the merged-set produced from a new shared anchor
intersects existing merged-sets, it is unioned only into the first
intersecting merged-set; every later merged-set — intersecting or not —
is left unchanged and the scan stops.  (The counterexample above shows
that as a consequence the emitted merged-sets are not always pairwise
disjoint and a chain of shared anchors can stay split.) -/
theorem absorbNew_unions_only_first_intersecting
    (pre post : List (List String)) (m new_set : List String)
    (h1 : ∀ c ∈ pre, listInter c new_set = [])
    (hm : listInter m new_set ≠ []) :
    absorbNew (pre ++ m :: post) new_set = pre ++ (listUnion m new_set) :: post := by
  unfold absorbNew
  have hfind : findFirstIdx (fun c => !(listInter c new_set).isEmpty)
      (pre ++ m :: post) = some pre.length := by
    refine findFirstIdx_append_cons _ _ _ _ (fun c hc => ?_) ?_
    · simp [h1 c hc]
    · simpa [List.isEmpty_iff] using hm
  rw [hfind]
  show (pre ++ m :: post).set pre.length
      (listUnion ((pre ++ m :: post).getD pre.length []) new_set) =
    pre ++ listUnion m new_set :: post
  rw [getD_append_cons, set_append_cons]

/-- Witness for the amended C2 theorem at a concrete input: existing merged
sets `{a}`, `{b}`, `{c}`; new set `{b, d}` intersects only `{b}` and is
unioned into it in place. -/
theorem absorbNew_unions_only_first_intersecting_witness :
    listInter ["a"] ["b", "d"] = [] ∧
    listInter ["b"] ["b", "d"] = ["b"] ∧
    absorbNew [["a"], ["b"], ["c"]] ["b", "d"] = [["a"], ["b", "d"], ["c"]] :=
  ⟨by decide, by decide,
   (absorbNew_unions_only_first_intersecting [["a"]] [["c"]] ["b"] ["b", "d"]
      (by decide) (by decide)).trans (by decide)⟩

/-- C6 (amended): with threshold `1.0` the similarity graph has no
self-loops, an edge between two positions exists only when the matrix
entry is exactly `1.0` (given the `[0, 1]` invariant upper bound), and
every strictly smaller entry produces no edge. -/
theorem threshold_one_edges_only_at_score_one (c : CorrDf) (i j : Nat)
    (hle : ∀ a b : Nat, corrValue c a b ≤ 1) :
    hasEdge c 1 i i = false ∧
    (hasEdge c 1 i j = true → corrValue c i j = 1) ∧
    (corrValue c i j < 1 → hasEdge c 1 i j = false) := by
  refine ⟨by simp [hasEdge], fun h => ?_, fun hlt => ?_⟩
  · simp only [hasEdge, Bool.and_eq_true, decide_eq_true_eq] at h
    exact le_antisymm (hle i j) h.2
  · simp only [hasEdge, Bool.and_eq_false_iff, decide_eq_false_iff_not]
    exact Or.inr (not_le.mpr hlt)

/-- Witness for the amended C6 theorem at the empty correlation frame. -/
theorem threshold_one_edges_only_at_score_one_witness :
    corrValue ⟨[], []⟩ 0 0 = 0 ∧ hasEdge ⟨[], []⟩ 1 0 0 = false := by
  have hle : ∀ a b : Nat, corrValue (⟨[], []⟩ : CorrDf) a b ≤ 1 := by
    intro a b
    show ((([] : List (List ℚ)).getD a []).getD b 0) ≤ 1
    simp
  exact ⟨by decide, (threshold_one_edges_only_at_score_one ⟨[], []⟩ 0 0 hle).1⟩

/-- C7: counterexample to the claim that an empty association matrix
(zero clusters) skips the partition step and returns an empty result
rather than failing.  The source has no skip branch: with zero rows the
graph loop adds no nodes and `nx.to_scipy_sparse_array` at line 244
raises `NetworkXError` ("Graph has no nodes or edges"), so the run fails
instead of returning an empty frame — shown here at the concrete empty
matrix with the singleton partitioner stand-in. -/
theorem fingerprinting_empty_matrix_raises_networkx_error :
    merge_clusters_fingerprinting singletonPartition [] ⟨[], []⟩ [] 1 2 =
      Except.error PyErr.networkxError := by
  rfl

/-- C7 (amended): if the association matrix is empty (zero clusters), the
partition step is never reached: the similarity graph has no nodes, the
sparse-matrix conversion before MCL raises `NetworkXError`, and the merger
fails with that error for every partitioner and every remaining input,
instead of returning an empty result. -/
theorem fingerprinting_empty_matrix_fails_for_any_partitioner
    (P : List Nat → List (Nat × Nat × ℚ) → List (List Nat))
    (raw : List (String × String)) (meta : List String) (t infl : ℚ) :
    merge_clusters_fingerprinting P raw ⟨[], []⟩ meta t infl =
      Except.error PyErr.networkxError := by
  rfl

/-- C8: within a single merged cluster each member lies in exactly one of
the metabolite/gene sub-lists, decided solely by membership in the
metabolite feature universe — both for the output rows of the overlap
merger and for the `split_and_match` splitter used by the fingerprint
path. -/
theorem merged_cluster_member_partition :
    (∀ (df : List ClusterRow) (features : List String) (dr : Nat)
       (row : MergedRow), row ∈ merge_clusters_overlapping df features dr →
       ∀ x : String,
         ¬(x ∈ row.Metabolites ∧ x ∈ row.Genes) ∧
         ((x ∈ row.Metabolites ∨ x ∈ row.Genes) →
           ((x ∈ row.Metabolites ↔ x ∈ features) ∧
            (x ∈ row.Genes ↔ x ∉ features)))) ∧
    (∀ (cell : String) (features : List String) (x : String),
       ¬(x ∈ (split_and_match cell features).1 ∧
         x ∈ (split_and_match cell features).2) ∧
       ((x ∈ (split_and_match cell features).1 ∨
         x ∈ (split_and_match cell features).2) →
         ((x ∈ (split_and_match cell features).1 ↔ x ∈ features) ∧
          (x ∈ (split_and_match cell features).2 ↔ x ∉ features)))) := by
  constructor
  · intro df features dr row hrow x
    obtain ⟨p, hp, hrow⟩ := List.mem_map.mp hrow
    subst hrow
    constructor
    · rintro ⟨h1, h2⟩
      simp only [List.mem_filter, decide_eq_true_eq] at h1 h2
      exact h2.2 h1.2
    · intro h
      simp only [List.mem_filter, decide_eq_true_eq] at h ⊢
      tauto
  · intro cell features x
    constructor
    · rintro ⟨h1, h2⟩
      simp only [split_and_match, List.mem_filter, decide_eq_true_eq] at h1 h2
      exact h2.2 h1
    · intro h
      simp only [split_and_match, List.mem_filter, decide_eq_true_eq] at h ⊢
      tauto

/-- Witness for C8 at a concrete input: the single cluster `m1 g1` at decay
rate 25 with metabolite universe `{m1}` yields one merged cluster whose
member `m1` sits in the metabolite sub-list only. -/
theorem merged_cluster_member_partition_witness :
    ((⟨"MC_1", ["m1"], ["g1"]⟩ : MergedRow) ∈
      merge_clusters_overlapping [⟨"A", "m1 g1", "DR_25"⟩] ["m1"] 25) ∧
    ¬("m1" ∈ (⟨"MC_1", ["m1"], ["g1"]⟩ : MergedRow).Metabolites ∧
      "m1" ∈ (⟨"MC_1", ["m1"], ["g1"]⟩ : MergedRow).Genes) :=
  ⟨by decide,
   (merged_cluster_member_partition.1 [⟨"A", "m1 g1", "DR_25"⟩] ["m1"] 25
     ⟨"MC_1", ["m1"], ["g1"]⟩ (by decide) "m1").1⟩

/-- C10: in the row assembly of `fill_extracted_rows`, an identifier found
in the transcript table is resolved to its transcript rows — the
metabolite table is not consulted — and the metabolite table is used only
for identifiers absent from the transcript table; the same precedence is
visible through `fill_extracted_rows` itself on a one-member cluster. -/
theorem extract_element_transcript_precedence (id e : String)
    (tdf mdf : List FeatureRow) :
    (e ∈ tdf.map (·.feature) →
      extract_element tdf mdf e = .ok (tdf.filter (fun r => decide (r.feature = e)))) ∧
    (e ∉ tdf.map (·.feature) → e ∈ mdf.map (·.feature) →
      extract_element tdf mdf e = .ok (mdf.filter (fun r => decide (r.feature = e)))) ∧
    (pySplitOn ' ' e = [e] → e ∈ tdf.map (·.feature) →
      fill_extracted_rows (id, e) tdf mdf =
        .ok (id, tdf.filter (fun r => decide (r.feature = e)))) := by
  refine ⟨fun h1 => ?_, fun h1 h2 => ?_, fun hs h1 => ?_⟩
  · simp [extract_element, h1]
  · simp [extract_element, h1, h2]
  · show (do
      let rows ← (pySplitOn ' ' e).foldlM
        (fun acc x => do
          let r ← extract_element tdf mdf x
          pure (acc ++ r)) []
      pure (id, rows)) = Except.ok (id, tdf.filter (fun r => decide (r.feature = e)))
    rw [hs]
    simp [extract_element, h1, List.foldlM]

/-- Witness for C10: the identifier `g` occurs in both feature tables with
different measurement rows; the assembled row is the transcript row. -/
theorem extract_element_transcript_precedence_witness :
    ("g" ∈ ([⟨"g", [1]⟩] : List FeatureRow).map (·.feature)) ∧
    ("g" ∈ ([⟨"g", [2]⟩] : List FeatureRow).map (·.feature)) ∧
    fill_extracted_rows ("c", "g") [⟨"g", [1]⟩] [⟨"g", [2]⟩] =
      .ok ("c", [⟨"g", [1]⟩]) := by
  have h := (extract_element_transcript_precedence "c" "g"
    [⟨"g", [1]⟩] [⟨"g", [2]⟩]).2.2 (by decide) (by decide)
  refine ⟨by decide, by decide, ?_⟩
  rw [h]
  rfl

/-- Number of cluster keys not yet visited; the measure that shrinks with
every continuing pass of the coexpression expansion loop. -/
def countUnvisited (dict : List (String × List String)) (visited : List String) : Nat :=
  ((dict.map Prod.fst).filter (fun k => decide (k ∉ visited))).length

lemma countUnvisited_le (dict : List (String × List String)) (visited : List String) :
    countUnvisited dict visited ≤ dict.length := by
  calc ((dict.map Prod.fst).filter _).length ≤ (dict.map Prod.fst).length :=
        List.length_filter_le _ _
    _ = dict.length := List.length_map _ _

lemma countUnvisited_lt (dict : List (String × List String))
    (visited visited' : List String) (himp : ∀ y ∈ visited, y ∈ visited')
    (x : String) (hx : x ∈ dict.map Prod.fst) (hxv : x ∉ visited)
    (hxv' : x ∈ visited') :
    countUnvisited dict visited' < countUnvisited dict visited := by
  unfold countUnvisited
  have hsub : List.Sublist
      ((dict.map Prod.fst).filter (fun k => decide (k ∉ visited')))
      ((dict.map Prod.fst).filter (fun k => decide (k ∉ visited))) := by
    refine List.monotone_filter_right _ (fun a ha => ?_)
    simp only [decide_eq_true_eq] at ha ⊢
    exact fun hav => ha (himp a hav)
  have hxbig : x ∈ (dict.map Prod.fst).filter (fun k => decide (k ∉ visited)) := by
    simp only [List.mem_filter, decide_eq_true_eq]
    exact ⟨hx, hxv⟩
  have hxsmall : x ∉ (dict.map Prod.fst).filter (fun k => decide (k ∉ visited')) := by
    simp only [List.mem_filter, decide_eq_true_eq]
    exact fun hc => hc.2 hxv'
  refine Nat.lt_of_le_of_ne hsub.length_le (fun heq => ?_)
  exact hxsmall (hsub.eq_of_length heq ▸ hxbig)

lemma coexPassGo_toMerge_mono (coex : List CoexEdge) (t : ℚ) (seed : String)
    (visited : List String) :
    ∀ (l : List (String × List String)) (st st' : CoexPassState),
      coexPassGo coex t seed visited l st = Except.ok st' →
      st.toMerge.length ≤ st'.toMerge.length := by
  intro l
  induction l with
  | nil =>
    intro st st' h
    simp only [coexPassGo, Except.ok.injEq] at h
    subst h; exact le_refl _
  | cons p rest ih =>
    intro st st' h
    obtain ⟨k, cl⟩ := p
    simp only [coexPassGo] at h
    split at h
    · exact ih _ _ h
    · split at h
      · exact absurd h (by simp)
      · split at h
        · have := ih _ _ h
          simp only [List.length_append, List.length_cons, List.length_nil] at this
          omega
        · have h2 := ih _ _ h
          exact h2

lemma coexPassGo_spec (coex : List CoexEdge) (t : ℚ) (seed : String)
    (visited : List String) :
    ∀ (l : List (String × List String)) (st st' : CoexPassState),
      coexPassGo coex t seed visited l st = Except.ok st' →
      (∀ x ∈ st'.toMerge, x ∈ st.toMerge ∨ (x ∈ l.map Prod.fst ∧ x ∉ visited)) ∧
      (st'.occurred = true → st.occurred = true ∨
        st.toMerge.length < st'.toMerge.length) := by
  intro l
  induction l with
  | nil =>
    intro st st' h
    simp only [coexPassGo, Except.ok.injEq] at h
    subst h
    exact ⟨fun x hx => Or.inl hx, fun hocc => Or.inl hocc⟩
  | cons p rest ih =>
    intro st st' h
    obtain ⟨k, cl⟩ := p
    simp only [coexPassGo] at h
    split at h
    · rcases ih st st' h with ⟨ha, hb⟩
      refine ⟨fun x hx => ?_, hb⟩
      rcases ha x hx with h1 | ⟨h2, h3⟩
      · exact Or.inl h1
      · exact Or.inr ⟨by simp [h2], h3⟩
    · rename_i hk
      split at h
      · exact absurd h (by simp)
      · rename_i b hconn
        split at h
        · -- candidate absorbed
          rcases ih _ _ h with ⟨ha, _⟩
          have hmono := coexPassGo_toMerge_mono coex t seed visited rest _ _ h
          constructor
          · intro x hx
            rcases ha x hx with h1 | ⟨h2, h3⟩
            · rcases List.mem_append.mp h1 with h4 | h4
              · exact Or.inl h4
              · have hxk : x = k := by simpa using h4
                subst hxk
                refine Or.inr ⟨by simp, fun hv => hk (Or.inl hv)⟩
            · exact Or.inr ⟨by simp [h2], h3⟩
          · intro _
            refine Or.inr (lt_of_lt_of_le ?_ hmono)
            simp
        · -- candidate not absorbed: state unchanged except `conn`
          rcases ih _ _ h with ⟨ha, hb⟩
          constructor
          · intro x hx
            rcases ha x hx with h1 | ⟨h2, h3⟩
            · exact Or.inl h1
            · exact Or.inr ⟨by simp [h2], h3⟩
          · intro hocc
            exact hb hocc

lemma coexExpand_isSome (coex : List CoexEdge) (t : ℚ)
    (dict : List (String × List String)) (seed : String) :
    ∀ (fuel : Nat) (visited cur : List String) (conn : Option Bool),
      countUnvisited dict visited < fuel →
      (coexExpand coex t dict seed fuel visited cur conn).isSome = true := by
  intro fuel
  induction fuel with
  | zero => intro v c cn h; exact absurd h (by omega)
  | succ f ih =>
    intro visited cur conn hcount
    cases hpass : coexPassGo coex t seed visited dict ⟨cur, [], false, conn⟩ with
    | error e => simp [coexExpand, hpass]
    | ok st =>
      by_cases hocc : st.occurred = true
      · have hspec := coexPassGo_spec coex t seed visited dict _ _ hpass
        have hlen : 0 < st.toMerge.length := by
          rcases hspec.2 hocc with h | h
          · exact absurd h (by simp)
          · simpa using h
        obtain ⟨x, hx⟩ := List.exists_mem_of_length_pos hlen
        have hxprop := hspec.1 x hx
        rcases hxprop with h | ⟨hxk, hxv⟩
        · exact absurd h (by simp)
        have hdec := countUnvisited_lt dict visited (visited ++ st.toMerge)
          (fun y hy => List.mem_append_left _ hy) x hxk hxv
          (List.mem_append_right _ hx)
        have hrec := ih (visited ++ st.toMerge) st.cur st.conn (by omega)
        simp [coexExpand, hpass, hocc, hrec]
      · simp [coexExpand, hpass, hocc]

lemma coexSeeds_isSome (coex : List CoexEdge) (t : ℚ)
    (dict : List (String × List String)) (fuel : Nat)
    (hfuel : dict.length < fuel) :
    ∀ (seeds : List (String × List String)) (visited : List String)
      (conn : Option Bool) (out : List CoexRow),
      (coexSeeds coex t dict fuel seeds visited conn out).isSome = true := by
  intro seeds
  induction seeds with
  | nil => intro v c o; simp [coexSeeds]
  | cons p rest ih =>
    intro visited conn out
    obtain ⟨k, cl⟩ := p
    by_cases hk : k ∈ visited
    · simp [coexSeeds, hk, ih]
    · have hexp := coexExpand_isSome coex t dict k fuel visited cl.eraseDups conn
        (lt_of_le_of_lt (countUnvisited_le dict visited) hfuel)
      rcases hopt : coexExpand coex t dict k fuel visited cl.eraseDups conn with _ | r
      · rw [hopt] at hexp; simp at hexp
      · cases r with
        | error e => simp [coexSeeds, hk, hopt]
        | ok trip =>
          obtain ⟨cur, v2, c2⟩ := trip
          simp [coexSeeds, hk, hopt, ih]

/-- C9: for every finite input, the expansion of the coexpression merger
reaches its stopping condition within the built-in pass budget of
`#clusters + 1` passes per seed: the result is never `none` (budget
exhaustion).  By construction of `coexExpand`, the loop returns only when a
full pass produced no new absorptions (`merge_occurred` false) or the
`NameError` of the unbound `connected` variable fires, so this is exactly
the fixed-point termination of the `while` loop after finitely many
passes. -/
theorem coex_expansion_terminates (df : List ClusterRow)
    (coex : List CoexEdge) (dr : Nat) (t : ℚ) :
    (merge_clusters_coex df coex dr t).isSome = true := by
  have h := coexSeeds_isSome coex t
      ((df.filter (fun r : ClusterRow => decide (r.Source = "DR_" ++ toString dr))).map
        (fun r : ClusterRow => (r.ID, pySplitOn ' ' r.Members)))
      ((df.filter (fun r : ClusterRow => decide (r.Source = "DR_" ++ toString dr))).length + 1)
      (by simp)
      ((df.filter (fun r : ClusterRow => decide (r.Source = "DR_" ++ toString dr))).map
        (fun r : ClusterRow => (r.ID, pySplitOn ' ' r.Members)))
      [] none []
  exact h

lemma covariance_symm {n : ℕ} (x y : Fin n → ℝ) :
    covariance x y = covariance y x := by
  unfold covariance
  congr 1
  exact Finset.sum_congr rfl (fun i _ => mul_comm _ _)

lemma centered_fin_one (x : Fin 1 → ℝ) (i : Fin 1) : centered x i = 0 := by
  have hi : i = 0 := Subsingleton.elim _ _
  subst hi
  simp [centered, sampleMean, Fin.sum_univ_one]

lemma covariance_self_nonneg {n : ℕ} (x : Fin n → ℝ) : 0 ≤ covariance x x := by
  match n with
  | 0 => simp [covariance]
  | 1 => simp [covariance, centered_fin_one]
  | (k + 2) =>
    apply div_nonneg
    · exact Finset.sum_nonneg (fun i _ => mul_self_nonneg _)
    · have hk : (0:ℝ) ≤ (k:ℝ) := Nat.cast_nonneg k
      push_cast
      linarith

lemma covariance_sq_le {n : ℕ} (x y : Fin n → ℝ) :
    (covariance x y) ^ 2 ≤ covariance x x * covariance y y := by
  match n with
  | 0 => simp [covariance]
  | 1 => simp [covariance, centered_fin_one]
  | (k + 2) =>
    unfold covariance
    have hdpos : (0:ℝ) < ((k + 2 : ℕ) : ℝ) - 1 := by
      have hk : (0:ℝ) ≤ (k:ℝ) := Nat.cast_nonneg k
      push_cast
      linarith
    rw [div_pow, div_mul_div_comm, pow_two (((k + 2 : ℕ) : ℝ) - 1)]
    refine (div_le_div_iff_of_pos_right (by positivity)).mpr ?_
    have hcs := Finset.sum_mul_sq_le_sq_mul_sq Finset.univ (centered x) (centered y)
    calc (∑ i, centered x i * centered y i) ^ 2
        ≤ (∑ i, centered x i ^ 2) * ∑ i, centered y i ^ 2 := hcs
      _ = (∑ i, centered x i * centered x i) * ∑ i, centered y i * centered y i := by
          simp [pow_two]

lemma abs_covariance_le {n : ℕ} (x y : Fin n → ℝ) :
    |covariance x y| ≤ Real.sqrt (covariance x x) * Real.sqrt (covariance y y) := by
  rw [show |covariance x y| = Real.sqrt ((covariance x y) ^ 2) from
        (Real.sqrt_sq_eq_abs _).symm,
      ← Real.sqrt_mul (covariance_self_nonneg x)]
  exact Real.sqrt_le_sqrt (covariance_sq_le x y)

lemma pearson_corr_abs_le {n : ℕ} (x y : Fin n → ℝ)
    (hx : covariance x x ≠ 0) (hy : covariance y y ≠ 0) :
    |pearson_corr x y| ≤ 1 := by
  have hxpos : 0 < covariance x x :=
    lt_of_le_of_ne (covariance_self_nonneg x) (Ne.symm hx)
  have hypos : 0 < covariance y y :=
    lt_of_le_of_ne (covariance_self_nonneg y) (Ne.symm hy)
  have hdenom : 0 < Real.sqrt (covariance x x) * Real.sqrt (covariance y y) :=
    mul_pos (Real.sqrt_pos.mpr hxpos) (Real.sqrt_pos.mpr hypos)
  unfold pearson_corr
  rw [abs_div, abs_of_pos hdenom]
  exact (div_le_one hdenom).mpr (abs_covariance_le x y)

lemma pearson_corr_symm {n : ℕ} (x y : Fin n → ℝ) :
    pearson_corr x y = pearson_corr y x := by
  unfold pearson_corr
  rw [covariance_symm x y, mul_comm]

/-- C5: the association matrix built by the fingerprint path is symmetric,
has `1.0` on the diagonal, has every entry in `[0, 1]` whenever each
fingerprint has nonzero sample variance (defined Pearson correlation), and
its off-diagonal entry is `(1 + pearson) / 2` of the two fingerprints. -/
theorem association_matrix_properties {m n : ℕ} (fps : Fin m → Fin n → ℝ)
    (hvar : ∀ i : Fin m, covariance (fps i) (fps i) ≠ 0) :
    (∀ i j, correlation_matrix fps i j = correlation_matrix fps j i) ∧
    (∀ i, correlation_matrix fps i i = 1) ∧
    (∀ i j, 0 ≤ correlation_matrix fps i j ∧ correlation_matrix fps i j ≤ 1) ∧
    (∀ i j, i ≠ j → correlation_matrix fps i j =
      (1 + pearson_corr (fps i) (fps j)) / 2) := by
  refine ⟨?_, ?_, ?_, ?_⟩
  · intro i j
    by_cases hij : i = j
    · subst hij; rfl
    · unfold correlation_matrix association_strength
      rw [if_neg hij, if_neg (Ne.symm hij), pearson_corr_symm]
  · intro i
    simp [correlation_matrix]
  · intro i j
    by_cases hij : i = j
    · subst hij
      simp [correlation_matrix]
    · have habs := pearson_corr_abs_le (fps i) (fps j) (hvar i) (hvar j)
      rcases abs_le.mp habs with ⟨hlo, hhi⟩
      unfold correlation_matrix association_strength
      rw [if_neg hij]
      constructor <;> linarith
  · intro i j hij
    unfold correlation_matrix association_strength
    rw [if_neg hij]

/-- Witness for C5 at the concrete fingerprints `(0, 1)` and `(1, 0)`:
both have sample variance `1/2`, and the matrix facts follow by applying
the theorem. -/
theorem association_matrix_properties_witness :
    correlation_matrix (![![0, 1], ![1, 0]] : Fin 2 → Fin 2 → ℝ) 0 0 = 1 ∧
    correlation_matrix (![![0, 1], ![1, 0]] : Fin 2 → Fin 2 → ℝ) 1 1 = 1 := by
  have hvar : ∀ i : Fin 2,
      covariance ((![![0, 1], ![1, 0]] : Fin 2 → Fin 2 → ℝ) i)
        ((![![0, 1], ![1, 0]] : Fin 2 → Fin 2 → ℝ) i) ≠ 0 := by
    intro i
    fin_cases i <;>
      · simp [covariance, centered, sampleMean, Fin.sum_univ_two]
        norm_num
  have h := (association_matrix_properties (![![0, 1], ![1, 0]]) hvar).2.1
  exact ⟨h 0, h 1⟩

end Meantools
